import Mathlib

/-!
Shallow embedding of the session-orchestration layer of sdcv
(`src/sdcv.cpp`): catalog building over `.ifo` metadata files,
selection resolution (explicit allow-list vs. persisted ordering file),
and the batch / interactive session loops, together with proofs of the
specified properties.

External collaborators (metadata parsing, the lookup backend, terminal
line input) are modelled as function parameters, as the spec treats them.
-/

set_option autoImplicit false

namespace Sdcv

/-- Descriptor produced by parsing one `.ifo` metadata file
(`DictInfo` in `libwrapper.hpp`): display name (`bookname`), path of the
metadata file (`ifo_file_name`) and the word count. -/
structure DictInfo where
  bookname : String
  ifo_file_name : String
  wordcount : Nat
  deriving Repr, DecidableEq

/-- The catalog `bookname_to_ifo : std::map<std::string, std::string>`
(sdcv.cpp line 149), modelled as an association list kept sorted by key,
matching `std::map` iteration order. -/
abbrev Catalog := List (String × String)

/-- Lexicographic comparison of character lists, the order
`std::less<std::string>` keeps `std::map` keys in. -/
def charListLt : List Char → List Char → Bool
  | [], [] => false
  | [], _ :: _ => true
  | _ :: _, [] => false
  | a :: as, b :: bs =>
    if a < b then true
    else if b < a then false
    else charListLt as bs

/-- `std::string::operator<`. -/
def strLt (a b : String) : Bool := charListLt a.data b.data

/-- `std::map::operator[] = v` : insert, or overwrite the value at an
existing key, keeping keys sorted and unique. -/
def catInsert : Catalog → String → String → Catalog
  | [], k, v => [(k, v)]
  | (k', v') :: rest, k, v =>
    if strLt k k' then (k, v) :: (k', v') :: rest
    else if k = k' then (k, v) :: rest
    else (k', v') :: catInsert rest k v

/-- `std::map::find` : the value stored at a key, if any. -/
def catFind : Catalog → String → Option String
  | [], _ => none
  | (k', v') :: rest, k => if k = k' then some v' else catFind rest k

/-- `std::map::at` (sdcv.cpp lines 175 and 184): the value at the key, or
an exception. The error carries the missing key, which is what identifies
the unknown dictionary. -/
def catAt (m : Catalog) (k : String) : Except String String :=
  match catFind m k with
  | some v => .ok v
  | none => .error k

/-- Body of the catalog-building callback (sdcv.cpp lines 151-156):
parse the metadata file; on failure return (skip the file), on success
store `bookname_to_ifo[bookname] = ifo_file_name`. -/
def catalogStep (parse : String → Option DictInfo) (m : Catalog) (fname : String) : Catalog :=
  match parse fname with
  | none => m
  | some dict_info => catInsert m dict_info.bookname dict_info.ifo_file_name

/-- The catalog-building loop (sdcv.cpp lines 150-157): fold the
callback over every enumerated metadata file. -/
def buildCatalog (files : List String) (parse : String → Option DictInfo) : Catalog :=
  files.foldl (catalogStep parse) []

/-- The `order_list` push loops (sdcv.cpp lines 173-177 and 183-185):
look every name up with `.at`, in order; the first missing name raises,
aborting the loop with that name. -/
def lookupAll (catalog : Catalog) : List String → Except String (List String)
  | [] => .ok []
  | n :: rest =>
    match catFind catalog n with
    | none => .error n
    | some p =>
      match lookupAll catalog rest with
      | .error e => .error e
      | .ok ps => .ok (p :: ps)

/-- Modelled from the spec: `stdio_getline` (declared in `utils.hpp`,
whose definition is not part of this source tree) reads the persisted
ordering file line by line; per the spec, each non-empty line is taken
as a display name. -/
def orderingLines (fileLines : List String) : List String :=
  fileLines.filter (fun l => !(l == ""))

/-- Selection resolution (sdcv.cpp lines 159-188).
`useDictList` is the repeatable `--use-dict` allow-list (`none` when the
flag was never given); `orderingFile` is the content of
`~/.sdcv_ordering` as a list of lines (`none` when absent or unreadable).
Returns `(order_list, disable_list)` or the first unknown name.
In the allow-list branch, `disable_list` collects the metadata path of
every catalog entry whose bookname matches no allow-list element
(lines 161-170), then `order_list` is built by `.at` lookups
(lines 173-177); the ordering file is never opened. In the other branch
the ordering file, when present, drives the `.at` lookups and
`disable_list` stays empty. -/
def resolveSelection (catalog : Catalog) (useDictList : Option (List String))
    (orderingFile : Option (List String)) : Except String (List String × List String) :=
  match useDictList with
  | some use =>
    let disable_list := (catalog.filter (fun x => !(use.contains x.1))).map (·.2)
    match lookupAll catalog use with
    | .error e => .error e
    | .ok order_list => .ok (order_list, disable_list)
  | none =>
    match orderingFile with
    | none => .ok ([], [])
    | some raw =>
      match lookupAll catalog (orderingLines raw) with
      | .error e => .error e
      | .ok order_list => .ok (order_list, [])

/-- Modelled from the spec: `Library::load` (`libwrapper`, not part of
this source tree) receives `(orderedUse, disabled)`; an empty
`orderedUse` together with an empty `disabled` means the entire catalog
is used, in catalog order; otherwise the ordered list itself is used. -/
def sessionDictionaries (catalog : Catalog) (orderedUse disabled : List String) :
    List String :=
  if orderedUse.isEmpty && disabled.isEmpty then catalog.map (·.2)
  else orderedUse

/-- The batch loop (sdcv.cpp lines 199-203): process the query words in
order; return failure at the first query `process_phrase` rejects.
`lookup` abstracts `Library::process_phrase`. Result: whether the loop
completed successfully, and the queries actually attempted, in order. -/
def runBatch (lookup : String → Bool) : List String → Bool × List String
  | [] => (true, [])
  | q :: rest =>
    if lookup q then
      let r := runBatch lookup rest
      (r.1, q :: r.2)
    else (false, [q])

/-- The interactive loop (sdcv.cpp lines 204-213): read lines until
end-of-input; `process_phrase` each one, aborting with failure on the
first rejection; print a trailing newline on graceful end-of-input.
`readerLines` is the sequence of lines the reader yields before
end-of-input. Result: success flag, phrases attempted, and whether the
trailing newline was printed. -/
def runInteractive (lookup : String → Bool) : List String → Bool × List String × Bool
  | [] => (true, [], true)
  | l :: rest =>
    if lookup l then
      let r := runInteractive lookup rest
      (r.1, l :: r.2.1, r.2.2)
    else (false, [l], false)

/-- The command-line options of `main` after successful
`g_option_context_parse` (sdcv.cpp lines 74-103); `queries` is
`argv[optind..argc]`. The utf8 / color / data-dir options only
parameterize collaborators and carry no control flow of their own. -/
structure Options where
  show_version : Bool
  show_list_dicts : Bool
  use_dict_list : Option (List String)
  non_interactive : Bool
  queries : List String
  deriving Repr, DecidableEq

/-- Observable outcome of one invocation of `main` (after a successful
argument parse): exit status and which effects happened. -/
structure MainResult where
  exit : Nat
  versionPrinted : Bool
  listingPrinted : Bool
  catalogBuilt : Bool
  sessionStarted : Bool
  nothingMsgPrinted : Bool
  lookupsAttempted : List String
  trailingNewline : Bool
  deriving Repr, DecidableEq

/-- The control flow of `main` (sdcv.cpp lines 117-217) after a
successful argument parse: version check, listing check, catalog build,
selection resolution (an unknown name propagates to the top-level catch,
line 218, which exits with failure before `Library::load`), then the
batch / interactive / nothing-to-translate dispatch. -/
def mainRun (opts : Options) (files : List String) (parse : String → Option DictInfo)
    (orderingFile : Option (List String)) (readerLines : List String)
    (lookup : String → Bool) : MainResult :=
  if opts.show_version then
    { exit := 0, versionPrinted := true, listingPrinted := false, catalogBuilt := false,
      sessionStarted := false, nothingMsgPrinted := false, lookupsAttempted := [],
      trailingNewline := false }
  else if opts.show_list_dicts then
    { exit := 0, versionPrinted := false, listingPrinted := true, catalogBuilt := false,
      sessionStarted := false, nothingMsgPrinted := false, lookupsAttempted := [],
      trailingNewline := false }
  else
    let catalog := buildCatalog files parse
    match resolveSelection catalog opts.use_dict_list orderingFile with
    | .error _ =>
      { exit := 1, versionPrinted := false, listingPrinted := false, catalogBuilt := true,
        sessionStarted := false, nothingMsgPrinted := false, lookupsAttempted := [],
        trailingNewline := false }
    | .ok _ =>
      if !opts.queries.isEmpty then
        let r := runBatch lookup opts.queries
        { exit := if r.1 then 0 else 1, versionPrinted := false, listingPrinted := false,
          catalogBuilt := true, sessionStarted := true, nothingMsgPrinted := false,
          lookupsAttempted := r.2, trailingNewline := false }
      else if !opts.non_interactive then
        let r := runInteractive lookup readerLines
        { exit := if r.1 then 0 else 1, versionPrinted := false, listingPrinted := false,
          catalogBuilt := true, sessionStarted := true, nothingMsgPrinted := false,
          lookupsAttempted := r.2.1, trailingNewline := r.2.2 }
      else
        { exit := 0, versionPrinted := false, listingPrinted := false, catalogBuilt := true,
          sessionStarted := true, nothingMsgPrinted := true, lookupsAttempted := [],
          trailingNewline := false }

/-- A concrete metadata parser used to instantiate theorems: it accepts
two file paths and, like `DictInfo::load_from_ifo_file`, records the
parsed file's own path in the descriptor. -/
def exampleParse : String → Option DictInfo := fun f =>
  if f = "dic/a.ifo" then some ⟨"A", f, 10⟩
  else if f = "dic/b.ifo" then some ⟨"B", f, 20⟩
  else none

/-- A concrete metadata parser mapping two files from different
directories to the same display name. -/
def exampleParseDup : String → Option DictInfo := fun f =>
  if f = "dir1/X.ifo" then some ⟨"X", f, 1⟩
  else if f = "dir2/X.ifo" then some ⟨"X", f, 2⟩
  else none

/-! ### Helper lemmas -/

theorem catFind_mem {c : Catalog} {n p : String} (h : catFind c n = some p) : (n, p) ∈ c := by
  induction c with
  | nil => simp [catFind] at h
  | cons x rest ih =>
    obtain ⟨k, v⟩ := x
    by_cases he : n = k
    · subst he
      simp [catFind] at h
      simp [h]
    · simp [catFind, he] at h
      exact List.mem_cons_of_mem _ (ih h)

theorem catFind_catInsert_self (m : Catalog) (k v : String) :
    catFind (catInsert m k v) k = some v := by
  induction m with
  | nil => simp [catInsert, catFind]
  | cons x rest ih =>
    obtain ⟨k', v'⟩ := x
    by_cases hlt : strLt k k' = true
    · simp [catInsert, hlt, catFind]
    · by_cases he : k = k'
      · subst he
        simp [catInsert, hlt, catFind]
      · simp [catInsert, hlt, he, catFind, ih]

theorem mem_catInsert {m : Catalog} {k v : String} {x : String × String}
    (h : x ∈ catInsert m k v) : x = (k, v) ∨ x ∈ m := by
  induction m with
  | nil => simpa [catInsert] using h
  | cons y rest ih =>
    obtain ⟨k', v'⟩ := y
    by_cases hlt : strLt k k' = true
    · simp only [catInsert, if_pos hlt] at h
      rcases List.mem_cons.mp h with rfl | h'
      · exact Or.inl rfl
      · exact Or.inr h'
    · by_cases he : k = k'
      · simp only [catInsert, if_neg hlt, if_pos he] at h
        rcases List.mem_cons.mp h with rfl | h'
        · exact Or.inl rfl
        · exact Or.inr (List.mem_cons_of_mem _ h')
      · simp only [catInsert, if_neg hlt, if_neg he] at h
        rcases List.mem_cons.mp h with rfl | h'
        · exact Or.inr (List.mem_cons_self _ _)
        · rcases ih h' with h'' | h''
          · exact Or.inl h''
          · exact Or.inr (List.mem_cons_of_mem _ h'')

theorem mem_foldl_catalogStep {parse : String → Option DictInfo} {files : List String}
    {m : Catalog} {x : String × String} (h : x ∈ files.foldl (catalogStep parse) m) :
    x ∈ m ∨ ∃ f ∈ files, ∃ d, parse f = some d ∧ x = (d.bookname, d.ifo_file_name) := by
  induction files generalizing m with
  | nil => simpa using h
  | cons f rest ih =>
    simp only [List.foldl_cons] at h
    rcases ih h with h' | h'
    · unfold catalogStep at h'
      rcases hp : parse f with _ | d
      · rw [hp] at h'
        exact Or.inl h'
      · rw [hp] at h'
        rcases mem_catInsert h' with h'' | h''
        · exact Or.inr ⟨f, by simp, d, hp, h''⟩
        · exact Or.inl h''
    · obtain ⟨g, hg, d, hd, hx⟩ := h'
      exact Or.inr ⟨g, List.mem_cons_of_mem _ hg, d, hd, hx⟩

theorem mem_buildCatalog {parse : String → Option DictInfo} {files : List String}
    {x : String × String} (h : x ∈ buildCatalog files parse) :
    ∃ f ∈ files, ∃ d, parse f = some d ∧ x = (d.bookname, d.ifo_file_name) := by
  rcases mem_foldl_catalogStep (m := []) h with h' | h'
  · simp at h'
  · exact h'

/-- If the metadata parser records the parsed file's own path (as the spec's
data model states), two catalog entries sharing a metadata path share their
display name. -/
theorem buildCatalog_val_inj {parse : String → Option DictInfo} {files : List String}
    (hfaith : ∀ f d, parse f = some d → d.ifo_file_name = f)
    {x y : String × String} (hx : x ∈ buildCatalog files parse)
    (hy : y ∈ buildCatalog files parse) (hval : x.2 = y.2) : x.1 = y.1 := by
  obtain ⟨f, _, d, hd, hxd⟩ := mem_buildCatalog hx
  obtain ⟨g, _, e, he, hye⟩ := mem_buildCatalog hy
  have hdf := hfaith f d hd
  have heg := hfaith g e he
  subst hxd hye
  simp only at hval ⊢
  have hfg : f = g := by rw [← hdf, ← heg, hval]
  subst hfg
  rw [hd] at he
  injection he with he'
  rw [he']

theorem lookupAll_ok {c : Catalog} {l : List String}
    (h : ∀ n ∈ l, (catFind c n).isSome) :
    lookupAll c l = .ok (l.map (fun n => (catFind c n).getD "")) := by
  induction l with
  | nil => rfl
  | cons n rest ih =>
    obtain ⟨p, hp⟩ := Option.isSome_iff_exists.mp (h n (by simp))
    have hrest := ih (fun m hm => h m (List.mem_cons_of_mem _ hm))
    simp [lookupAll, hp, hrest]

theorem lookupAll_error {c : Catalog} {l : List String}
    (h : ∃ n ∈ l, catFind c n = none) :
    ∃ m ∈ l, catFind c m = none ∧ lookupAll c l = .error m := by
  induction l with
  | nil => simp at h
  | cons n rest ih =>
    rcases hn : catFind c n with _ | p
    · exact ⟨n, by simp, hn, by simp [lookupAll, hn]⟩
    · have h' : ∃ m ∈ rest, catFind c m = none := by
        obtain ⟨m, hm, hmn⟩ := h
        rcases List.mem_cons.mp hm with rfl | hm'
        · rw [hn] at hmn
          exact absurd hmn (by simp)
        · exact ⟨m, hm', hmn⟩
      obtain ⟨m, hm1, hm2, hm3⟩ := ih h'
      exact ⟨m, List.mem_cons_of_mem _ hm1, hm2, by simp [lookupAll, hn, hm3]⟩

theorem lookupAll_mem {c : Catalog} {l ps : List String}
    (h : lookupAll c l = .ok ps) {p : String} (hp : p ∈ ps) :
    ∃ n ∈ l, catFind c n = some p := by
  induction l generalizing ps with
  | nil =>
    simp [lookupAll] at h
    subst h
    simp at hp
  | cons n rest ih =>
    rcases hn : catFind c n with _ | q
    · simp [lookupAll, hn] at h
    · rcases hrest : lookupAll c rest with e | qs
      · simp [lookupAll, hn, hrest] at h
      · simp [lookupAll, hn, hrest] at h
        subst h
        rcases List.mem_cons.mp hp with rfl | hp'
        · exact ⟨n, by simp, hn⟩
        · obtain ⟨m, hm, hm'⟩ := ih hrest hp'
          exact ⟨m, List.mem_cons_of_mem _ hm, hm'⟩

theorem runBatch_eq (lookup : String → Bool) (qs : List String) :
    runBatch lookup qs =
      (qs.all lookup, qs.takeWhile lookup ++ (qs.dropWhile lookup).take 1) := by
  induction qs with
  | nil => rfl
  | cons q rest ih =>
    by_cases hq : lookup q
    · simp [runBatch, hq, ih, List.takeWhile_cons, List.dropWhile_cons]
    · simp [runBatch, hq, List.takeWhile_cons, List.dropWhile_cons]

theorem runInteractive_eq (lookup : String → Bool) (ls : List String) :
    runInteractive lookup ls =
      (ls.all lookup, ls.takeWhile lookup ++ (ls.dropWhile lookup).take 1,
       ls.all lookup) := by
  induction ls with
  | nil => rfl
  | cons l rest ih =>
    by_cases hl : lookup l
    · simp [runInteractive, hl, ih, List.takeWhile_cons, List.dropWhile_cons]
    · simp [runInteractive, hl, List.takeWhile_cons, List.dropWhile_cons]

theorem takeWhile_eq_self_of_all {f : String → Bool} {ls : List String}
    (h : ls.all f = true) : ls.takeWhile f = ls := by
  induction ls with
  | nil => rfl
  | cons l rest ih =>
    simp only [List.all_cons, Bool.and_eq_true] at h
    simp [List.takeWhile_cons, h.1, ih h.2]

/-! ### Claim theorems -/

/-- C1: with an explicit allow-list all of whose names exist in the catalog,
selection resolution succeeds; `orderedUse` is the allow-list mapped through
the catalog in the given order, duplicates preserved; `disabled` holds
exactly the metadata paths of the catalog entries whose display name does
not occur in the allow-list; and the persisted ordering file has no
influence on the result. -/
theorem allowlist_resolution (catalog : Catalog) (use : List String)
    (ord other : Option (List String))
    (h : ∀ n ∈ use, (catFind catalog n).isSome) :
    resolveSelection catalog (some use) ord =
      .ok (use.map (fun n => (catFind catalog n).getD ""),
        (catalog.filter (fun x => !(use.contains x.1))).map (·.2)) ∧
    (∀ p, p ∈ (catalog.filter (fun x => !(use.contains x.1))).map (·.2) ↔
      ∃ e ∈ catalog, e.2 = p ∧ e.1 ∉ use) ∧
    resolveSelection catalog (some use) ord =
      resolveSelection catalog (some use) other := by
  refine ⟨?_, ?_, rfl⟩
  · simp [resolveSelection, lookupAll_ok h]
  · intro p
    simp only [List.mem_map, List.mem_filter, List.contains, List.elem_eq_mem,
      Bool.not_eq_true', decide_eq_false_iff_not]
    constructor
    · rintro ⟨e, ⟨he, hne⟩, hp⟩
      exact ⟨e, he, hp, hne⟩
    · rintro ⟨e, he, hp, hne⟩
      exact ⟨e, ⟨he, hne⟩, hp⟩

/-- Witness for `allowlist_resolution` on a concrete catalog and an
allow-list with a duplicate: the order (including the duplicate) is kept
and both names being present means nothing is disabled. -/
theorem allowlist_resolution_witness :
    resolveSelection [("A", "pa"), ("B", "pb")] (some ["B", "A", "B"]) (some ["A"]) =
      .ok (["pb", "pa", "pb"], []) := by
  have h : ∀ n ∈ ["B", "A", "B"], (catFind [("A", "pa"), ("B", "pb")] n).isSome := by
    decide
  have := (allowlist_resolution [("A", "pa"), ("B", "pb")] ["B", "A", "B"]
    (some ["A"]) none h).1
  rw [this]
  rfl

/-- C2: with no allow-list and a persisted ordering file present, each
non-empty line is looked up in file order and the resulting metadata paths
form `orderedUse`; a listed name absent from the catalog makes resolution
fail with the unknown name rather than being skipped. -/
theorem ordering_file_resolution (catalog : Catalog) (raw : List String) :
    ((∀ n ∈ orderingLines raw, (catFind catalog n).isSome) →
      resolveSelection catalog none (some raw) =
        .ok ((orderingLines raw).map (fun n => (catFind catalog n).getD ""), [])) ∧
    ((∃ n ∈ orderingLines raw, catFind catalog n = none) →
      ∃ m ∈ orderingLines raw, catFind catalog m = none ∧
        resolveSelection catalog none (some raw) = .error m) := by
  constructor
  · intro h
    simp [resolveSelection, lookupAll_ok h]
  · intro h
    obtain ⟨m, hm1, hm2, hm3⟩ := lookupAll_error h
    exact ⟨m, hm1, hm2, by simp [resolveSelection, hm3]⟩

/-- Witness for `ordering_file_resolution`: the spec's example — ordering
file `[B, A]` over catalog `{A, B}` yields `orderedUse = [path(B), path(A)]`. -/
theorem ordering_file_resolution_witness :
    resolveSelection [("A", "pa"), ("B", "pb")] none (some ["B", "A"]) =
      .ok (["pb", "pa"], []) := by
  have := (ordering_file_resolution [("A", "pa"), ("B", "pb")] ["B", "A"]).1 (by decide)
  rw [this]
  rfl

/-- C6: with no allow-list and no readable ordering file, resolution
returns empty `orderedUse` and empty `disabled`, which the session layer
interprets as the entire catalog in catalog order. -/
theorem default_selection_whole_catalog (catalog : Catalog) :
    resolveSelection catalog none none = .ok ([], []) ∧
    sessionDictionaries catalog [] [] = catalog.map (·.2) :=
  ⟨rfl, rfl⟩

/-- C3: in batch mode the queries are processed strictly in input order;
the attempted queries are exactly the successful prefix plus the first
failing query (so nothing after a failure is attempted), and the exit
status is success exactly when every query succeeds. -/
theorem batch_mode_fail_fast (opts : Options) (files : List String)
    (parse : String → Option DictInfo) (ordFile : Option (List String))
    (readerLines : List String) (lookup : String → Bool)
    (hv : opts.show_version = false) (hl : opts.show_list_dicts = false)
    (hq : opts.queries.isEmpty = false)
    (hok : ∃ sel, resolveSelection (buildCatalog files parse) opts.use_dict_list ordFile
      = .ok sel) :
    (mainRun opts files parse ordFile readerLines lookup).exit =
      (if opts.queries.all lookup then 0 else 1) ∧
    (mainRun opts files parse ordFile readerLines lookup).lookupsAttempted =
      opts.queries.takeWhile lookup ++ (opts.queries.dropWhile lookup).take 1 := by
  obtain ⟨sel, hsel⟩ := hok
  constructor <;> simp [mainRun, hv, hl, hsel, hq, runBatch_eq]

/-- Witness for `batch_mode_fail_fast`: with queries
`[cat, dog, fish]` where only `cat` succeeds, `cat` and `dog` are
attempted, `fish` is not, and the exit status is failure. -/
theorem batch_mode_fail_fast_witness :
    (mainRun ⟨false, false, none, false, ["cat", "dog", "fish"]⟩ [] (fun _ => none)
      none [] (fun s => s == "cat")).exit = 1 ∧
    (mainRun ⟨false, false, none, false, ["cat", "dog", "fish"]⟩ [] (fun _ => none)
      none [] (fun s => s == "cat")).lookupsAttempted = ["cat", "dog"] := by
  have h := batch_mode_fail_fast ⟨false, false, none, false, ["cat", "dog", "fish"]⟩
    [] (fun _ => none) none [] (fun s => s == "cat") rfl rfl rfl ⟨([], []), rfl⟩
  constructor
  · rw [h.1]
    rfl
  · rw [h.2]
    rfl

/-- C5: in interactive mode, end-of-input ends the loop with success and
the trailing blank line is printed exactly on that graceful termination;
the attempted phrases are the successful prefix plus the first failing
one (so a lookup failure aborts the session immediately with a failure
status), and on a fully successful session every non-empty input line
had its lookup performed. -/
theorem interactive_mode_semantics (opts : Options) (files : List String)
    (parse : String → Option DictInfo) (ordFile : Option (List String))
    (readerLines : List String) (lookup : String → Bool)
    (hv : opts.show_version = false) (hl : opts.show_list_dicts = false)
    (hq : opts.queries.isEmpty = true) (hn : opts.non_interactive = false)
    (hok : ∃ sel, resolveSelection (buildCatalog files parse) opts.use_dict_list ordFile
      = .ok sel) :
    (mainRun opts files parse ordFile readerLines lookup).exit =
      (if readerLines.all lookup then 0 else 1) ∧
    (mainRun opts files parse ordFile readerLines lookup).trailingNewline =
      readerLines.all lookup ∧
    (mainRun opts files parse ordFile readerLines lookup).lookupsAttempted =
      readerLines.takeWhile lookup ++ (readerLines.dropWhile lookup).take 1 ∧
    (readerLines.all lookup = true → ∀ l ∈ readerLines, l ≠ "" →
      l ∈ (mainRun opts files parse ordFile readerLines lookup).lookupsAttempted) := by
  obtain ⟨sel, hsel⟩ := hok
  refine ⟨?_, ?_, ?_, ?_⟩
  · simp [mainRun, hv, hl, hsel, hq, hn, runInteractive_eq]
  · simp [mainRun, hv, hl, hsel, hq, hn, runInteractive_eq]
  · simp [mainRun, hv, hl, hsel, hq, hn, runInteractive_eq]
  · intro hall l hmem _
    simp only [mainRun, hv, hl, hsel, hq, hn, Bool.not_false, if_false, if_true,
      Bool.not_true, runInteractive_eq]
    rw [takeWhile_eq_self_of_all hall]
    exact List.mem_append_left _ hmem

/-- Witness for `interactive_mode_semantics`: two input lines, every
lookup succeeding — graceful end-of-input, success status, trailing
newline, and the non-empty line `hi` was looked up. -/
theorem interactive_mode_semantics_witness :
    (mainRun ⟨false, false, none, false, []⟩ [] (fun _ => none) none ["hi", "there"]
      (fun _ => true)).exit = 0 ∧
    (mainRun ⟨false, false, none, false, []⟩ [] (fun _ => none) none ["hi", "there"]
      (fun _ => true)).trailingNewline = true ∧
    "hi" ∈ (mainRun ⟨false, false, none, false, []⟩ [] (fun _ => none) none
      ["hi", "there"] (fun _ => true)).lookupsAttempted := by
  have h := interactive_mode_semantics ⟨false, false, none, false, []⟩ [] (fun _ => none)
    none ["hi", "there"] (fun _ => true) rfl rfl rfl rfl ⟨([], []), rfl⟩
  refine ⟨?_, ?_, ?_⟩
  · rw [h.1]
    rfl
  · rw [h.2.1]
    rfl
  · exact h.2.2.2 rfl "hi" (by simp) (by decide)

/-- C4: an allow-list naming a dictionary absent from the catalog makes
resolution fail with that unknown name (no ordered/disabled pair is
produced), and the whole invocation aborts with a failure exit status
before any session is started or any lookup attempted. -/
theorem allowlist_unknown_dictionary (files : List String)
    (parse : String → Option DictInfo) (use : List String)
    (ord : Option (List String)) (readerLines : List String)
    (lookup : String → Bool) (opts : Options)
    (hv : opts.show_version = false) (hl : opts.show_list_dicts = false)
    (hu : opts.use_dict_list = some use)
    (hmiss : ∃ n ∈ use, catFind (buildCatalog files parse) n = none) :
    (∃ m ∈ use, catFind (buildCatalog files parse) m = none ∧
      resolveSelection (buildCatalog files parse) (some use) ord = .error m) ∧
    (mainRun opts files parse ord readerLines lookup).sessionStarted = false ∧
    (mainRun opts files parse ord readerLines lookup).exit = 1 ∧
    (mainRun opts files parse ord readerLines lookup).lookupsAttempted = [] := by
  obtain ⟨m, hm1, hm2, hm3⟩ := lookupAll_error hmiss
  have herr : resolveSelection (buildCatalog files parse) (some use) ord = .error m := by
    simp [resolveSelection, hm3]
  refine ⟨⟨m, hm1, hm2, herr⟩, ?_, ?_, ?_⟩ <;>
    simp [mainRun, hv, hl, hu, herr]

/-- Witness for `allowlist_unknown_dictionary`: allow-list `[Z]` over an
empty catalog. -/
theorem allowlist_unknown_dictionary_witness :
    (∃ m ∈ ["Z"], catFind (buildCatalog [] exampleParse) m = none ∧
      resolveSelection (buildCatalog [] exampleParse) (some ["Z"]) none = .error m) ∧
    (mainRun ⟨false, false, some ["Z"], false, []⟩ [] exampleParse none []
      (fun _ => true)).sessionStarted = false ∧
    (mainRun ⟨false, false, some ["Z"], false, []⟩ [] exampleParse none []
      (fun _ => true)).exit = 1 ∧
    (mainRun ⟨false, false, some ["Z"], false, []⟩ [] exampleParse none []
      (fun _ => true)).lookupsAttempted = [] :=
  allowlist_unknown_dictionary [] exampleParse ["Z"] none [] (fun _ => true)
    ⟨false, false, some ["Z"], false, []⟩ rfl rfl rfl ⟨"Z", by simp, rfl⟩

/-- C9: forced non-interactive mode with zero queries performs no lookup,
prints the nothing-to-translate message, and exits successfully. -/
theorem nothing_to_translate_success (opts : Options) (files : List String)
    (parse : String → Option DictInfo) (ordFile : Option (List String))
    (readerLines : List String) (lookup : String → Bool)
    (hv : opts.show_version = false) (hl : opts.show_list_dicts = false)
    (hn : opts.non_interactive = true) (hq : opts.queries.isEmpty = true)
    (hok : ∃ sel, resolveSelection (buildCatalog files parse) opts.use_dict_list ordFile
      = .ok sel) :
    (mainRun opts files parse ordFile readerLines lookup).exit = 0 ∧
    (mainRun opts files parse ordFile readerLines lookup).nothingMsgPrinted = true ∧
    (mainRun opts files parse ordFile readerLines lookup).lookupsAttempted = [] := by
  obtain ⟨sel, hsel⟩ := hok
  refine ⟨?_, ?_, ?_⟩ <;> simp [mainRun, hv, hl, hsel, hq, hn]

/-- Witness for `nothing_to_translate_success` at a concrete invocation. -/
theorem nothing_to_translate_success_witness :
    (mainRun ⟨false, false, none, true, []⟩ [] (fun _ => none) none []
      (fun _ => true)).exit = 0 ∧
    (mainRun ⟨false, false, none, true, []⟩ [] (fun _ => none) none []
      (fun _ => true)).nothingMsgPrinted = true ∧
    (mainRun ⟨false, false, none, true, []⟩ [] (fun _ => none) none []
      (fun _ => true)).lookupsAttempted = [] :=
  nothing_to_translate_success ⟨false, false, none, true, []⟩ [] (fun _ => none) none []
    (fun _ => true) rfl rfl rfl rfl ⟨([], []), rfl⟩

/-- C10: the version flag wins over every other mode — whatever else is
on the (successfully parsed) command line, only the version line is
printed and the process exits 0 with no catalog, no listing and no
session. -/
theorem version_flag_precedence (opts : Options) (files : List String)
    (parse : String → Option DictInfo) (ordFile : Option (List String))
    (readerLines : List String) (lookup : String → Bool)
    (hv : opts.show_version = true) :
    mainRun opts files parse ordFile readerLines lookup =
      { exit := 0, versionPrinted := true, listingPrinted := false,
        catalogBuilt := false, sessionStarted := false, nothingMsgPrinted := false,
        lookupsAttempted := [], trailingNewline := false } := by
  simp [mainRun, hv]

/-- Witness for `version_flag_precedence`: version flag together with the
listing flag, a selector and a query word. -/
theorem version_flag_precedence_witness :
    mainRun ⟨true, true, some ["D"], true, ["w"]⟩ ["dic/a.ifo"] exampleParse
      (some ["B"]) ["x"] (fun _ => false) =
      { exit := 0, versionPrinted := true, listingPrinted := false,
        catalogBuilt := false, sessionStarted := false, nothingMsgPrinted := false,
        lookupsAttempted := [], trailingNewline := false } :=
  version_flag_precedence ⟨true, true, some ["D"], true, ["w"]⟩ ["dic/a.ifo"]
    exampleParse (some ["B"]) ["x"] (fun _ => false) rfl

/-- C7: on every successful resolution over a built catalog (whose
parser records the parsed file's own path, as the spec's data model
states), the ordered-use paths and the disabled paths are disjoint, and
every ordered-use path belongs to a catalog entry. -/
theorem resolved_selection_invariants (files : List String)
    (parse : String → Option DictInfo) (useDictList : Option (List String))
    (orderingFile : Option (List String)) (orderedUse disabled : List String)
    (hfaith : ∀ f d, parse f = some d → d.ifo_file_name = f)
    (hok : resolveSelection (buildCatalog files parse) useDictList orderingFile =
      .ok (orderedUse, disabled)) :
    (∀ p ∈ orderedUse, p ∉ disabled) ∧
    (∀ p ∈ orderedUse, ∃ e ∈ buildCatalog files parse, e.2 = p) := by
  rcases useDictList with _ | use
  · rcases orderingFile with _ | raw
    · simp [resolveSelection] at hok
      obtain ⟨rfl, rfl⟩ := hok
      simp
    · rcases hall : lookupAll (buildCatalog files parse) (orderingLines raw) with e | ps
      · simp [resolveSelection, hall] at hok
      · simp [resolveSelection, hall] at hok
        obtain ⟨rfl, rfl⟩ := hok
        constructor
        · intro p _ hp
          simp at hp
        · intro p hp
          obtain ⟨n, _, hn⟩ := lookupAll_mem hall hp
          exact ⟨(n, p), catFind_mem hn, rfl⟩
  · rcases hall : lookupAll (buildCatalog files parse) use with e | ps
    · simp [resolveSelection, hall] at hok
    · simp [resolveSelection, hall] at hok
      obtain ⟨rfl, rfl⟩ := hok
      constructor
      · intro p hp hpd
        obtain ⟨n, hnuse, hn⟩ := lookupAll_mem hall hp
        simp only [List.mem_map, List.mem_filter, List.contains, List.elem_eq_mem,
          Bool.not_eq_true', decide_eq_false_iff_not] at hpd
        obtain ⟨e, ⟨he, hne⟩, hep⟩ := hpd
        have hkey : (n, p).1 = e.1 :=
          buildCatalog_val_inj hfaith (catFind_mem hn) he (by simp [hep])
        exact hne (hkey ▸ hnuse)
      · intro p hp
        obtain ⟨n, _, hn⟩ := lookupAll_mem hall hp
        exact ⟨(n, p), catFind_mem hn, rfl⟩

/-- Witness for `resolved_selection_invariants` on a concrete two-entry
catalog with allow-list `[A]`. -/
theorem resolved_selection_invariants_witness :
    (∀ p ∈ ["dic/a.ifo"], p ∉ ["dic/b.ifo"]) ∧
    (∀ p ∈ ["dic/a.ifo"], ∃ e ∈ buildCatalog ["dic/a.ifo", "dic/b.ifo"] exampleParse,
      e.2 = p) := by
  have hfaith : ∀ f d, exampleParse f = some d → d.ifo_file_name = f := by
    intro f d h
    unfold exampleParse at h
    split at h
    · cases h
      rfl
    · split at h
      · cases h
        rfl
      · cases h
  exact resolved_selection_invariants ["dic/a.ifo", "dic/b.ifo"] exampleParse
    (some ["A"]) none ["dic/a.ifo"] ["dic/b.ifo"] hfaith (by rfl)

/-- C8: a later-enumerated metadata file with the same display name
overwrites the earlier entry in the catalog (last wins), and a metadata
file that fails to parse is silently skipped, the build continuing over
the remaining files unchanged. -/
theorem catalog_last_wins_and_skip (pre post : List String) (f : String)
    (parse : String → Option DictInfo) :
    (∀ d, parse f = some d →
      catFind (buildCatalog (pre ++ [f]) parse) d.bookname = some d.ifo_file_name) ∧
    (parse f = none →
      buildCatalog (pre ++ f :: post) parse = buildCatalog (pre ++ post) parse) := by
  constructor
  · intro d hd
    unfold buildCatalog
    rw [List.foldl_append]
    simp [catalogStep, hd, catFind_catInsert_self]
  · intro hf
    unfold buildCatalog
    rw [List.foldl_append, List.foldl_append]
    simp [catalogStep, hf]

/-- Witness for `catalog_last_wins_and_skip`: two directories each
holding a metadata file with display name `X` — the final catalog maps
`X` to the second directory's file. -/
theorem catalog_last_wins_and_skip_witness :
    catFind (buildCatalog ["dir1/X.ifo", "dir2/X.ifo"] exampleParseDup) "X" =
      some "dir2/X.ifo" :=
  (catalog_last_wins_and_skip ["dir1/X.ifo"] [] "dir2/X.ifo" exampleParseDup).1
    ⟨"X", "dir2/X.ifo", 2⟩ rfl

end Sdcv
